import Mathlib

/-!
Verification of the request-queuing and resilient-dispatch layer of the
storyboard editor: bounded task queues, exponential-backoff fetch, base-URL
normalization, task routing, configuration resolution and response decoding.
Each definition is a shallow embedding of the corresponding TypeScript
function from the generation-service module.
-/

set_option autoImplicit false

namespace Storyboard

/-! ## Base-URL normalization

Embedding of `normalizeBaseUrl`:

  let url = host.trim().replace(/\/+$/, "");
  if (!url) return "https://generativelanguage.googleapis.com";
  if (url.startsWith('/')) return url;
  if (!/^https?:\/\//i.test(url)) url = `https://${url}`;
  return url;
-/

/-- Embedding of the JS `String.prototype.trim`: drop whitespace at both
ends. -/
def jsTrim (s : String) : String :=
  String.mk
    (((s.data.dropWhile Char.isWhitespace).reverse.dropWhile
      Char.isWhitespace).reverse)

/-- Embedding of `url.startsWith(pat)`. -/
def strStartsWith (s pat : String) : Bool :=
  List.isPrefixOf pat.data s.data

/-- Embedding of `.replace(/\/+$/, "")`: drop every trailing slash. -/
def stripTrailingSlashes (s : String) : String :=
  String.mk ((s.data.reverse.dropWhile (fun c => c = '/')).reverse)

/-- Embedding of the case-insensitive test `/^https?:\/\//i.test(url)`. -/
def hasHttpScheme (s : String) : Bool :=
  let l := s.data.map Char.toLower
  List.isPrefixOf "http://".data l || List.isPrefixOf "https://".data l

/-- Default public upstream origin used when the configured host is empty. -/
def defaultOrigin : String := "https://generativelanguage.googleapis.com"

/-- Embedding of `normalizeBaseUrl`. -/
def normalizeBaseUrl (host : String) : String :=
  let url := stripTrailingSlashes (jsTrim host)
  if url = "" then defaultOrigin
  else if strStartsWith url "/" then url
  else if hasHttpScheme url then url
  else "https://" ++ url

/-! ## Exponential-backoff fetch

Embedding of `fetchWithRetry(url, options, maxRetries = 3)`.  The network is
modelled by a function `f : Nat -> Nat` giving the HTTP status of the i-th
`fetch` call; the loop performs exactly one fetch per iteration, at
iteration index `attempt`.  The result records the returned status, the
list of backoff delays that were awaited (in order), and how many fetch
calls were made.
-/

/-- Outcome of a `fetchWithRetry` run: final status, awaited delays in
milliseconds, and the number of `fetch` calls performed. -/
structure FetchResult where
  status : Nat
  delays : List Nat
  calls : Nat
deriving DecidableEq, Repr

/-- Embedding of the retry condition: status 429 or any 5xx. -/
def retryableStatus (s : Nat) : Bool :=
  s == 429 || (500 ≤ s && s ≤ 599)

/-- The `while (attempt <= maxRetries)` loop of `fetchWithRetry`, by
recursion on `remaining = maxRetries - attempt`; `delays` accumulates the
backoff waits performed so far.  When `remaining = 0` the loop is at
`attempt == maxRetries`, so both the retryable and the non-retryable branch
return the response.  The trailing `return fetch(url, options)` after the
loop is unreachable: starting from attempt 0 every iteration either returns
or re-enters the loop with `attempt <= maxRetries` still holding. -/
def fetchWithRetryGo (f : Nat → Nat) : Nat → Nat → List Nat → FetchResult
  | 0, attempt, delays => ⟨f attempt, delays, attempt + 1⟩
  | remaining + 1, attempt, delays =>
    let s := f attempt
    if retryableStatus s then
      fetchWithRetryGo f remaining (attempt + 1) (delays ++ [2 ^ attempt * 2000])
    else ⟨s, delays, attempt + 1⟩

/-- Embedding of `fetchWithRetry` (the loop started at attempt 0). -/
def fetchWithRetry (f : Nat → Nat) (maxRetries : Nat := 3) : FetchResult :=
  fetchWithRetryGo f maxRetries 0 []

/-! ## Bounded task queue

Operational model of `RequestQueue`.  Tasks are identified by natural
numbers.  The JS event loop is single threaded: the body of `process()` up
to its first `await` (the guard check, the `activeCount` increment and the
`shift`) runs atomically, and `process()` starts at most one task per call.
`process()` is invoked once per `add` (after pushing the wrapped task) and
once in the `finally` of each completed task (after the decrement).  A run
of the queue is therefore a sequence of two kinds of atomic events:
submitting a task and completing a running task, each followed by one
synchronous `process()` pump.  Ghost fields `started`, `completed` and
`submitted` record the order of starts, completions and submissions. -/

/-- One queue instance: `pending` is the private `queue` array,
`activeCount` the private counter, `running` the multiset of tasks whose
`await task()` is in flight; the remaining fields are ghost history. -/
structure QState where
  pending : List Nat
  activeCount : Nat
  running : List Nat
  started : List Nat
  completed : List Nat
  submitted : List Nat
deriving DecidableEq, Repr

/-- The initial, empty queue. -/
def QState.init : QState := ⟨[], 0, [], [], [], []⟩

/-- One synchronous call of `process()`: return unchanged when the
concurrency bound is reached or nothing is pending; otherwise increment
`activeCount`, shift the head task off the queue and start it. -/
def processOnce (maxConcurrency : Nat) (σ : QState) : QState :=
  if σ.activeCount ≥ maxConcurrency ∨ σ.pending = [] then σ
  else
    match σ.pending with
    | [] => σ
    | t :: rest =>
      { σ with
        pending := rest
        activeCount := σ.activeCount + 1
        running := σ.running ++ [t]
        started := σ.started ++ [t] }

/-- Atomic events of a queue run: `add` pushes a task and pumps once;
`complete` finishes one running task, decrements `activeCount` in the
`finally` block and pumps once. -/
inductive QStep (maxConcurrency : Nat) : QState → QState → Prop
  | add (σ : QState) (t : Nat) :
      QStep maxConcurrency σ
        (processOnce maxConcurrency
          { σ with
            pending := σ.pending ++ [t]
            submitted := σ.submitted ++ [t] })
  | complete (σ : QState) (t : Nat) (h : t ∈ σ.running) :
      QStep maxConcurrency σ
        (processOnce maxConcurrency
          { σ with
            running := σ.running.erase t
            activeCount := σ.activeCount - 1
            completed := σ.completed ++ [t] })

/-- States reachable from the empty queue by a sequence of events. -/
inductive QReachable (maxConcurrency : Nat) : QState → Prop
  | init : QReachable maxConcurrency QState.init
  | step {σ σ' : QState} : QReachable maxConcurrency σ →
      QStep maxConcurrency σ σ' → QReachable maxConcurrency σ'

/-! ## Task routing

Embedding of the routing decision in `geminiRequest`:

  const isImageTask = model.includes('image') ||
    payload.generationConfig?.imageConfig;
  const queue = isImageTask ? imageQueue : textQueue;

with `imageQueue = new RequestQueue(1)` and `textQueue =
new RequestQueue(10)`.  Of the payload, routing only reads
`generationConfig?.imageConfig`; optional JSON fields are `Option`, and an
absent field is the only falsy value an object-valued field can take. -/

/-- The `generationConfig.imageConfig` block of a request payload. -/
structure ImageConfig where
  aspectRatio : Option String
  imageSize : Option String
deriving DecidableEq, Repr

/-- The `generationConfig` block of a request payload. -/
structure GenerationConfig where
  imageConfig : Option ImageConfig
deriving DecidableEq, Repr

/-- The slice of a request payload that routing inspects. -/
structure Payload where
  generationConfig : Option GenerationConfig
deriving DecidableEq, Repr

/-- Embedding of `model.includes(pat)`: substring containment. -/
def includesStr (s pat : String) : Bool :=
  s.data.tails.any (fun suffix => List.isPrefixOf pat.data suffix)

/-- The two queue lanes. -/
inductive Lane
  | image
  | text
deriving DecidableEq, Repr

/-- Concurrency bound of each lane: `new RequestQueue(1)` for images,
`new RequestQueue(10)` for text. -/
def laneMaxConcurrency : Lane → Nat
  | Lane.image => 1
  | Lane.text => 10

/-- Embedding of `isImageTask`. -/
def isImageTask (model : String) (payload : Payload) : Bool :=
  includesStr model "image" ||
    (payload.generationConfig.bind GenerationConfig.imageConfig).isSome

/-- Embedding of `const queue = isImageTask ? imageQueue : textQueue`. -/
def routeLane (model : String) (payload : Payload) : Lane :=
  if isImageTask model payload then Lane.image else Lane.text

/-! ## Configuration resolver

Embedding of `getConfig`.  The persisted settings blob
`localStorage.getItem('proxy_config')` is `Option String` (`null` when
absent); `JSON.parse` is abstracted as a function returning `none` exactly
when parsing throws, which the `try ... catch (e) {}` converts into falling
through to the defaults.  The Lean function is total: no input reaches the
caller as an exception. -/

/-- The persisted configuration record. -/
structure ProxyConfig where
  apiHost : String
  apiKey : String
  textModel : String
  imageModel : String
deriving DecidableEq, Repr

/-- The built-in default configuration returned by `getConfig` when the
blob is absent or unparsable. -/
def defaultProxyConfig : ProxyConfig :=
  { apiHost := ""
    apiKey := ""
    textModel := "gemini-3-flash-preview"
    imageModel := "gemini-3-pro-image-preview" }

/-- Embedding of `getConfig`. -/
def getConfig (saved : Option String)
    (parseJson : String → Option ProxyConfig) : ProxyConfig :=
  match saved with
  | some s =>
    match parseJson s with
    | some cfg => cfg
    | none => defaultProxyConfig
  | none => defaultProxyConfig

/-! ## Response decoders

Embedding of the response shape
`{ candidates: [{ content: { parts: [{ text?, inlineData?: { data } }] } }] }`
and of the two decoding paths: the image loop shared by
`generateStoryboardFrame`, `editFrame` and `refineImageClarity`

  const parts = data.candidates?.[0]?.content?.parts || [];
  for (const part of parts) {
    const b64 = part.inlineData?.data;
    if (b64) return base64ToBlobUrl(b64);
  }
  return undefined;

and the text path of `analyzeAsset`

  return data.candidates?.[0]?.content?.parts?.[0]?.text || "Asset";

JS truthiness on a string field means: present and nonempty. -/

/-- The `inlineData` block of a response part. -/
structure InlineData where
  data : Option String
deriving DecidableEq, Repr

/-- One part of a candidate content. -/
structure Part where
  text : Option String
  inlineData : Option InlineData
deriving DecidableEq, Repr

/-- The `content` block of a candidate. -/
structure Content where
  parts : Option (List Part)
deriving DecidableEq, Repr

/-- One response candidate. -/
structure Candidate where
  content : Option Content
deriving DecidableEq, Repr

/-- A decoded response body. -/
structure ResponseData where
  candidates : Option (List Candidate)
deriving DecidableEq, Repr

/-- JS truthiness of a string-valued optional field: `none` for an absent
field and for the empty string. -/
def truthyString : Option String → Option String
  | some s => if s = "" then none else some s
  | none => none

/-- Embedding of `data.candidates?.[0]?.content?.parts || []`. -/
def firstCandidateParts (d : ResponseData) : List Part :=
  (((d.candidates.bind List.head?).bind Candidate.content).bind
    Content.parts).getD []

/-- Embedding of the image-extraction loop: first part whose
`inlineData?.data` is truthy, `none` when there is none. -/
def extractInlineImage (d : ResponseData) : Option String :=
  (firstCandidateParts d).findSome?
    (fun p => truthyString (p.inlineData.bind InlineData.data))

/-- Embedding of the text path of `analyzeAsset`: the optional chain
`candidates?.[0]?.content?.parts?.[0]?.text`, with `|| "Asset"` supplying
the placeholder on an absent or empty text. -/
def analyzeAssetText (d : ResponseData) : String :=
  (truthyString
    (((((d.candidates.bind List.head?).bind Candidate.content).bind
      Content.parts).bind List.head?).bind Part.text)).getD "Asset"

/-- Decoder following the words of the spec, for comparison with
`analyzeAssetText`: extract the first text part of the first candidate
content parts, defaulting to the placeholder when no text part is
present. -/
def specFirstTextPartDecode (d : ResponseData) : String :=
  ((firstCandidateParts d).findSome? Part.text).getD "Asset"

/-! ## Queue invariants -/

/-- Inductive invariant of a queue with bound `N`: the counter mirrors the
number of running tasks, never exceeds the bound, starts follow submission
order (`started` is always a prefix of `submitted`, with `pending` the
rest), and when `N = 1` every started task except the one still running has
already completed, in start order. -/
def QInv (N : Nat) (σ : QState) : Prop :=
  σ.activeCount = σ.running.length ∧
  σ.activeCount ≤ N ∧
  σ.started ++ σ.pending = σ.submitted ∧
  (N = 1 → σ.started = σ.completed ++ σ.running)

theorem qInv_init (N : Nat) : QInv N QState.init := by
  refine ⟨rfl, Nat.zero_le _, rfl, fun _ => rfl⟩

/-- The pump leaves the state untouched when the guard fires. -/
theorem processOnce_eq_self {N : Nat} {σ : QState}
    (hg : σ.activeCount ≥ N ∨ σ.pending = []) : processOnce N σ = σ := by
  unfold processOnce
  rw [if_pos hg]

/-- The pump dequeues the head and starts it when below the bound. -/
theorem processOnce_eq_start {N : Nat} {σ : QState} {t : Nat}
    {rest : List Nat} (hlt : σ.activeCount < N) (hp : σ.pending = t :: rest) :
    processOnce N σ =
      { σ with
        pending := rest
        activeCount := σ.activeCount + 1
        running := σ.running ++ [t]
        started := σ.started ++ [t] } := by
  unfold processOnce
  rw [if_neg (by rw [hp]; push_neg; exact ⟨by omega, by simp⟩)]
  rw [hp]

theorem qInv_processOnce {N : Nat} {σ : QState} (h : QInv N σ) :
    QInv N (processOnce N σ) := by
  obtain ⟨hcnt, hle, hfifo, hser⟩ := h
  by_cases hg : σ.activeCount ≥ N ∨ σ.pending = []
  · rw [processOnce_eq_self hg]
    exact ⟨hcnt, hle, hfifo, hser⟩
  · push_neg at hg
    obtain ⟨hlt, hne⟩ := hg
    cases hp : σ.pending with
    | nil => exact absurd hp hne
    | cons t rest =>
      rw [processOnce_eq_start hlt hp]
      refine ⟨by simp [hcnt], by show σ.activeCount + 1 ≤ N; omega, ?_, ?_⟩
      · show (σ.started ++ [t]) ++ rest = σ.submitted
        calc (σ.started ++ [t]) ++ rest = σ.started ++ (t :: rest) := by simp
        _ = σ.started ++ σ.pending := by rw [hp]
        _ = σ.submitted := hfifo
      · intro h1
        show σ.started ++ [t] = σ.completed ++ (σ.running ++ [t])
        have hrun : σ.running = [] := by
          have : σ.running.length = 0 := by omega
          exact List.eq_nil_of_length_eq_zero this
        have hst := hser h1
        rw [hrun] at hst
        simp at hst
        simp [hst, hrun]

theorem qInv_step {N : Nat} {σ σ' : QState} (h : QInv N σ)
    (hs : QStep N σ σ') : QInv N σ' := by
  obtain ⟨hcnt, hle, hfifo, hser⟩ := h
  cases hs with
  | add t =>
    apply qInv_processOnce
    refine ⟨hcnt, hle, ?_, hser⟩
    show σ.started ++ (σ.pending ++ [t]) = σ.submitted ++ [t]
    simp [← hfifo]
  | complete t hmem =>
    apply qInv_processOnce
    have hpos : 0 < σ.running.length := List.length_pos_of_mem hmem
    refine ⟨?_, by show σ.activeCount - 1 ≤ N; omega, hfifo, ?_⟩
    · show σ.activeCount - 1 = (σ.running.erase t).length
      simp [List.length_erase_of_mem hmem, hcnt]
    · intro h1
      show σ.started = (σ.completed ++ [t]) ++ σ.running.erase t
      have hone : σ.running = [t] := by
        have hlen : σ.running.length = 1 := by omega
        obtain ⟨a, ha⟩ := List.length_eq_one.mp hlen
        have hta : t = a := by simpa [ha] using hmem
        rw [ha, hta]
      have hst := hser h1
      rw [hone] at hst
      simp [hst, hone, List.erase_cons]

theorem qReachable_qInv {N : Nat} {σ : QState} (h : QReachable N σ) :
    QInv N σ := by
  induction h with
  | init => exact qInv_init N
  | step _ hs ih => exact qInv_step ih hs

/-- A `process()` call starts a task only when the guard
`activeCount < maxConcurrency` holds (and something is pending). -/
theorem processOnce_start_guard {N : Nat} {τ : QState}
    (h : (processOnce N τ).started ≠ τ.started) :
    τ.activeCount < N ∧ τ.pending ≠ [] := by
  unfold processOnce at h
  by_cases hg : τ.activeCount ≥ N ∨ τ.pending = []
  · simp [hg] at h
  · push_neg at hg
    exact ⟨hg.1, hg.2⟩

/-! ## Retry, substring and normalization lemmas -/

/-- Every backoff delay recorded by the retry loop was caused by a
retryable status: delay number `i` follows fetch call number `i`. -/
theorem fetchWithRetryGo_delays_retryable (f : Nat → Nat) :
    ∀ (remaining attempt : Nat) (ds : List Nat),
      ds.length = attempt →
      (∀ j, j < attempt → retryableStatus (f j) = true) →
      ∀ i, i < (fetchWithRetryGo f remaining attempt ds).delays.length →
        retryableStatus (f i) = true := by
  intro remaining
  induction remaining with
  | zero =>
    intro attempt ds hlen hall i hi
    simp only [fetchWithRetryGo] at hi
    replace hi : i < ds.length := hi
    exact hall i (by omega)
  | succ r ih =>
    intro attempt ds hlen hall i hi
    simp only [fetchWithRetryGo] at hi
    by_cases hr : retryableStatus (f attempt) = true
    · rw [if_pos hr] at hi
      refine ih (attempt + 1) (ds ++ [2 ^ attempt * 2000]) (by simp [hlen])
        ?_ i hi
      intro j hj
      rcases Nat.lt_succ_iff_lt_or_eq.mp hj with hlt | heq
      · exact hall j hlt
      · rw [heq]; exact hr
    · rw [if_neg hr] at hi
      replace hi : i < ds.length := hi
      exact hall i (by omega)

/-- A non-retryable first status makes `fetchWithRetry` return at once:
the first response, no delays, one fetch call. -/
theorem fetchWithRetry_immediate (f : Nat → Nat) (maxRetries : Nat)
    (h : retryableStatus (f 0) = false) :
    fetchWithRetry f maxRetries = ⟨f 0, [], 1⟩ := by
  cases maxRetries with
  | zero => rfl
  | succ r => simp [fetchWithRetry, fetchWithRetryGo, h]

/-- Characterization of `model.includes(pat)` as substring containment. -/
theorem includesStr_iff (s pat : String) :
    includesStr s pat = true ↔ ∃ l r : List Char, l ++ pat.data ++ r = s.data := by
  unfold includesStr
  rw [List.any_eq_true]
  constructor
  · rintro ⟨t, hts, hp⟩
    have hinf : pat.data <:+: s.data := (List.infix_iff_prefix_suffix ..).mpr
      ⟨t, List.isPrefixOf_iff_prefix.mp hp, (List.mem_tails ..).mp hts⟩
    exact hinf
  · intro h
    obtain ⟨t, hp, hs⟩ := (List.infix_iff_prefix_suffix ..).mp h
    exact ⟨t, (List.mem_tails ..).mpr hs, List.isPrefixOf_iff_prefix.mpr hp⟩

/-- Stripping trailing slashes of an all-slash string leaves nothing. -/
theorem stripTrailingSlashes_all_slash {s : String}
    (h : ∀ c ∈ s.data, c = '/') : stripTrailingSlashes s = "" := by
  unfold stripTrailingSlashes
  have hdrop : (s.data.reverse.dropWhile (fun c => c = '/')) = [] := by
    rw [List.dropWhile_eq_nil_iff]
    intro c hc
    simp only [decide_eq_true_eq]
    exact h c (List.mem_reverse.mp hc)
  rw [hdrop]
  rfl

/-- The optional chain of `analyzeAsset` reads the head of the first
candidate parts. -/
theorem analyzeAssetText_eq_head (d : ResponseData) :
    analyzeAssetText d =
      (truthyString ((firstCandidateParts d).head?.bind Part.text)).getD
        "Asset" := by
  rcases d with ⟨cands⟩
  cases cands with
  | none => rfl
  | some l =>
    cases l with
    | nil => rfl
    | cons c cs =>
      cases hc : c.content with
      | none => simp [analyzeAssetText, firstCandidateParts, hc]
      | some ct =>
        cases hps : ct.parts with
        | none => simp [analyzeAssetText, firstCandidateParts, hc, hps]
        | some ps =>
          simp [analyzeAssetText, firstCandidateParts, hc, hps]

/-- Membership in the first candidate parts comes from some candidate of
the response. -/
theorem mem_firstCandidateParts {d : ResponseData} {p : Part}
    (hp : p ∈ firstCandidateParts d) :
    ∃ c ∈ d.candidates.getD [],
      p ∈ (c.content.bind Content.parts).getD [] := by
  rcases d with ⟨cands⟩
  cases cands with
  | none => simp [firstCandidateParts] at hp
  | some l =>
    cases l with
    | nil => simp [firstCandidateParts] at hp
    | cons c cs =>
      refine ⟨c, by simp, ?_⟩
      cases hc : c.content with
      | none => simp [firstCandidateParts, hc] at hp
      | some ct =>
        cases hps : ct.parts with
        | none => simp [firstCandidateParts, hc, hps] at hp
        | some ps =>
          simp only [firstCandidateParts, hc, hps] at hp
          simpa [hc, hps] using hp

/-! ## Claims -/

/-- C1: for every queue bound `N`, every reachable state of the queue
keeps `activeCount` (a `Nat`, hence nonnegative) at or below `N`, and a
`process()` call dequeues and starts a pending task only when
`activeCount < N`. -/
theorem claim_C1_concurrency_bound (N : Nat) (σ : QState)
    (h : QReachable N σ) :
    σ.activeCount ≤ N ∧
    (∀ τ : QState, (processOnce N τ).started ≠ τ.started →
      τ.activeCount < N) :=
  ⟨(qReachable_qInv h).2.1, fun _ hτ => (processOnce_start_guard hτ).1⟩

/-- Witness for C1: the state reached after submitting task 5 to an empty
queue with bound 2. -/
theorem claim_C1_concurrency_bound_witness :
    (⟨[], 1, [5], [5], [], [5]⟩ : QState).activeCount ≤ 2 ∧
    (∀ τ : QState, (processOnce 2 τ).started ≠ τ.started →
      τ.activeCount < 2) := by
  have h0 : QReachable 2 QState.init := QReachable.init
  have h1 := QReachable.step h0 (QStep.add QState.init 5)
  replace h1 : QReachable 2 (⟨[], 1, [5], [5], [], [5]⟩ : QState) := h1
  exact claim_C1_concurrency_bound 2 _ h1

/-- C2: in every reachable state the sequence of started tasks followed by
the still-pending ones is exactly the submission sequence, so admission is
FIFO; with bound 1 at most one task runs and the start sequence is the
completion sequence followed by the at-most-one running task, so each task
completes before the next one starts. -/
theorem claim_C2_fifo_serialized (N : Nat) (σ : QState)
    (h : QReachable N σ) :
    σ.started ++ σ.pending = σ.submitted ∧
    (N = 1 → σ.started = σ.completed ++ σ.running ∧
      σ.running.length ≤ 1) := by
  have hi := qReachable_qInv h
  refine ⟨hi.2.2.1, fun h1 => ⟨hi.2.2.2 h1, ?_⟩⟩
  have hcnt := hi.1
  have hle := hi.2.1
  omega

/-- Witness for C2: the run submit 1, submit 2, complete 1 on a queue with
bound 1 reaches the state where 1 has completed and 2 is running. -/
theorem claim_C2_fifo_serialized_witness :
    ([1, 2] : List Nat) ++ [] = [1, 2] ∧
    ((1 : Nat) = 1 → ([1, 2] : List Nat) = [1] ++ [2] ∧
      ([2] : List Nat).length ≤ 1) := by
  have h0 : QReachable 1 QState.init := QReachable.init
  have h1 := QReachable.step h0 (QStep.add QState.init 1)
  replace h1 : QReachable 1 (⟨[], 1, [1], [1], [], [1]⟩ : QState) := h1
  have h2 := QReachable.step h1
    (QStep.add (⟨[], 1, [1], [1], [], [1]⟩ : QState) 2)
  replace h2 : QReachable 1 (⟨[2], 1, [1], [1], [], [1, 2]⟩ : QState) := h2
  have h3 := QReachable.step h2
    (QStep.complete (⟨[2], 1, [1], [1], [], [1, 2]⟩ : QState) 1
      (by decide))
  replace h3 : QReachable 1 (⟨[], 1, [2], [1, 2], [1], [1, 2]⟩ : QState) :=
    h3
  exact claim_C2_fifo_serialized 1 _ h3

/-- C3: a backoff delay is awaited only after a fetch call whose status
was 429 or 5xx, and when the first status is not retryable the response is
returned at once with no delay and a single fetch call. -/
theorem claim_C3_retry_only_transient (f : Nat → Nat) (maxRetries : Nat) :
    (∀ i, i < (fetchWithRetry f maxRetries).delays.length →
      retryableStatus (f i) = true) ∧
    (retryableStatus (f 0) = false →
      fetchWithRetry f maxRetries = ⟨f 0, [], 1⟩) :=
  ⟨fetchWithRetryGo_delays_retryable f maxRetries 0 [] rfl
      (fun j hj => absurd hj (Nat.not_lt_zero j)),
    fetchWithRetry_immediate f maxRetries⟩

/-- Witness for C3: a constant 404 response is returned immediately with
zero delays and one fetch call. -/
theorem claim_C3_retry_only_transient_witness :
    retryableStatus 404 = false ∧
    fetchWithRetry (fun _ => 404) 3 = ⟨404, [], 1⟩ :=
  ⟨by decide,
    (claim_C3_retry_only_transient (fun _ => 404) 3).2 (by decide)⟩

/-- C4: when every request returns 500 and `maxRetries = 3`, exactly three
delays of 2000, 4000 and 8000 milliseconds are awaited, four fetch calls
are made, and the final still-failing 500 response is returned as a
value. -/
theorem claim_C4_exhausted_retries (f : Nat → Nat)
    (h : ∀ i, i ≤ 3 → f i = 500) :
    fetchWithRetry f 3 = ⟨500, [2000, 4000, 8000], 4⟩ := by
  have h0 := h 0 (by omega)
  have h1 := h 1 (by omega)
  have h2 := h 2 (by omega)
  have h3 := h 3 (by omega)
  simp [fetchWithRetry, fetchWithRetryGo, h0, h1, h2, h3, retryableStatus]

/-- Witness for C4: the constant 500 response function. -/
theorem claim_C4_exhausted_retries_witness :
    fetchWithRetry (fun _ => 500) 3 = ⟨500, [2000, 4000, 8000], 4⟩ :=
  claim_C4_exhausted_retries (fun _ => 500) (fun _ _ => rfl)

/-- C5: a dispatch is routed to the image lane exactly when the model
identifier contains the substring "image" or the payload carries a
`generationConfig.imageConfig` block, and to the text lane otherwise; the
image lane has concurrency 1 and the text lane concurrency 10. -/
theorem claim_C5_routing (model : String) (payload : Payload) :
    (routeLane model payload = Lane.image ↔
      ((∃ l r : List Char, l ++ "image".data ++ r = model.data) ∨
        (payload.generationConfig.bind
          GenerationConfig.imageConfig).isSome = true)) ∧
    (routeLane model payload = Lane.text ↔
      ¬ routeLane model payload = Lane.image) ∧
    laneMaxConcurrency Lane.image = 1 ∧
    laneMaxConcurrency Lane.text = 10 := by
  have hiff : isImageTask model payload = true ↔
      ((∃ l r : List Char, l ++ "image".data ++ r = model.data) ∨
        (payload.generationConfig.bind
          GenerationConfig.imageConfig).isSome = true) := by
    unfold isImageTask
    rw [Bool.or_eq_true, includesStr_iff]
  by_cases hb : isImageTask model payload = true
  · refine ⟨?_, ?_, rfl, rfl⟩
    · simp only [routeLane, if_pos hb]
      exact iff_of_true trivial (hiff.mp hb)
    · simp [routeLane, hb]
  · refine ⟨?_, ?_, rfl, rfl⟩
    · simp only [routeLane, if_neg hb]
      constructor
      · intro hcontra
        exact absurd hcontra (by decide)
      · intro hp
        exact absurd (hiff.mpr hp) hb
    · simp [routeLane, hb]

/-- C6 counterexample: the host "/" begins with the path separator, yet
normalization returns the absolute default origin, not a same-origin
relative path. -/
theorem claim_C6_counterexample :
    strStartsWith "/" "/" = true ∧
    normalizeBaseUrl "/" = defaultOrigin ∧
    strStartsWith (normalizeBaseUrl "/") "/" = false := by decide

/-- C6 amended: normalization first trims whitespace and strips trailing
slashes; an empty stripped host yields the default public origin, a
nonempty stripped host beginning with the path separator is returned as-is
as a same-origin relative path, and any other stripped host is returned
with "https://" prefixed when no http or https scheme is present. -/
theorem claim_C6_normalize_cases (host : String) :
    (stripTrailingSlashes (jsTrim host) = "" →
      normalizeBaseUrl host = defaultOrigin) ∧
    (stripTrailingSlashes (jsTrim host) ≠ "" →
      strStartsWith (stripTrailingSlashes (jsTrim host)) "/" = true →
      normalizeBaseUrl host = stripTrailingSlashes (jsTrim host)) ∧
    (stripTrailingSlashes (jsTrim host) ≠ "" →
      strStartsWith (stripTrailingSlashes (jsTrim host)) "/" = false →
      hasHttpScheme (stripTrailingSlashes (jsTrim host)) = true →
      normalizeBaseUrl host = stripTrailingSlashes (jsTrim host)) ∧
    (stripTrailingSlashes (jsTrim host) ≠ "" →
      strStartsWith (stripTrailingSlashes (jsTrim host)) "/" = false →
      hasHttpScheme (stripTrailingSlashes (jsTrim host)) = false →
      normalizeBaseUrl host =
        "https://" ++ stripTrailingSlashes (jsTrim host)) := by
  refine ⟨fun h0 => ?_, fun h0 h1 => ?_, fun h0 h1 h2 => ?_,
    fun h0 h1 h2 => ?_⟩
  · simp [normalizeBaseUrl, h0]
  · simp [normalizeBaseUrl, h0, h1]
  · simp [normalizeBaseUrl, h0, h1, h2]
  · simp [normalizeBaseUrl, h0, h1, h2]

/-- Witness for the amended C6: a host with surrounding whitespace, a
trailing slash and no scheme is coerced to an absolute https address. -/
theorem claim_C6_normalize_cases_witness :
    stripTrailingSlashes (jsTrim " example.com/ ") ≠ "" ∧
    strStartsWith (stripTrailingSlashes (jsTrim " example.com/ ")) "/"
      = false ∧
    hasHttpScheme (stripTrailingSlashes (jsTrim " example.com/ "))
      = false ∧
    normalizeBaseUrl " example.com/ "
      = "https://" ++ stripTrailingSlashes (jsTrim " example.com/ ") :=
  ⟨by decide, by decide, by decide,
    (claim_C6_normalize_cases " example.com/ ").2.2.2 (by decide)
      (by decide) (by decide)⟩

/-- C7: when no part of any candidate carries an `inlineData` field, the
shared image-extraction loop of `generateStoryboardFrame`, `editFrame` and
`refineImageClarity` returns the explicit absence value `none` instead of
failing. -/
theorem claim_C7_absent_image (d : ResponseData)
    (h : ∀ c ∈ d.candidates.getD [],
      ∀ p ∈ (c.content.bind Content.parts).getD [], p.inlineData = none) :
    extractInlineImage d = none := by
  unfold extractInlineImage
  rw [List.findSome?_eq_none_iff]
  intro p hp
  obtain ⟨c, hc, hpc⟩ := mem_firstCandidateParts hp
  rw [h c hc p hpc]
  rfl

/-- Witness for C7: a response whose single candidate has one text-only
part yields no image. -/
theorem claim_C7_absent_image_witness :
    extractInlineImage ⟨some [⟨some ⟨some [⟨some "hi", none⟩]⟩⟩]⟩
      = none :=
  claim_C7_absent_image ⟨some [⟨some ⟨some [⟨some "hi", none⟩]⟩⟩]⟩
    (by decide)

/-- C8: the configuration resolver is a total function; an unparsable
settings blob is treated exactly like an absent one, and in both cases
every field falls back to its built-in default. -/
theorem claim_C8_config_fallback
    (parseJson : String → Option ProxyConfig) (s : String) :
    getConfig none parseJson = defaultProxyConfig ∧
    (parseJson s = none →
      getConfig (some s) parseJson = getConfig none parseJson) ∧
    defaultProxyConfig.apiHost = "" ∧
    defaultProxyConfig.apiKey = "" ∧
    defaultProxyConfig.textModel = "gemini-3-flash-preview" ∧
    defaultProxyConfig.imageModel = "gemini-3-pro-image-preview" := by
  refine ⟨rfl, fun hs => ?_, rfl, rfl, rfl, rfl⟩
  simp [getConfig, hs]

/-- Witness for C8: a parser that rejects the malformed blob. -/
theorem claim_C8_config_fallback_witness :
    getConfig none (fun _ => none) = defaultProxyConfig ∧
    getConfig (some "not json") (fun _ => none)
      = getConfig none (fun _ => none) :=
  ⟨(claim_C8_config_fallback (fun _ => none) "not json").1,
    (claim_C8_config_fallback (fun _ => none) "not json").2.1 rfl⟩

/-- C9 counterexample: a response whose first part is an image and whose
second part is the text "hello" decodes to the placeholder "Asset", while
the first text part is "hello"; the decoder does not extract the first
text part. -/
theorem claim_C9_counterexample :
    analyzeAssetText
      ⟨some [⟨some ⟨some [⟨none, some ⟨some "b64"⟩⟩,
        ⟨some "hello", none⟩]⟩⟩]⟩ = "Asset" ∧
    specFirstTextPartDecode
      ⟨some [⟨some ⟨some [⟨none, some ⟨some "b64"⟩⟩,
        ⟨some "hello", none⟩]⟩⟩]⟩ = "hello" ∧
    ("Asset" : String) ≠ "hello" := by decide

/-- C9 amended: the text decoder reads the text field of the first part
of the first candidate content parts, returning the placeholder "Asset"
when the part list is empty or the first part has no text or empty
text. -/
theorem claim_C9_first_part_text (d : ResponseData) :
    (firstCandidateParts d = [] → analyzeAssetText d = "Asset") ∧
    (∀ p ps, firstCandidateParts d = p :: ps →
      analyzeAssetText d = (truthyString p.text).getD "Asset") := by
  constructor
  · intro hnil
    rw [analyzeAssetText_eq_head, hnil]
    rfl
  · intro p ps hcons
    rw [analyzeAssetText_eq_head, hcons]
    rfl

/-- Witness for the amended C9: a first part with nonempty text is
returned, and an image-first response falls back to the placeholder. -/
theorem claim_C9_first_part_text_witness :
    analyzeAssetText ⟨some [⟨some ⟨some [⟨some "hi", none⟩]⟩⟩]⟩
      = (truthyString (some "hi")).getD "Asset" :=
  (claim_C9_first_part_text
    ⟨some [⟨some ⟨some [⟨some "hi", none⟩]⟩⟩]⟩).2
    ⟨some "hi", none⟩ [] (by decide)

/-- C10: a configured host that trims to a nonempty string of slashes is
normalized to the default public origin, because trailing-slash stripping
and the emptiness check happen before the leading-slash check. -/
theorem claim_C10_slash_only_host (host : String)
    (_h1 : jsTrim host ≠ "")
    (h2 : ∀ c ∈ (jsTrim host).data, c = '/') :
    normalizeBaseUrl host = defaultOrigin := by
  simp [normalizeBaseUrl, stripTrailingSlashes_all_slash h2]

/-- Witness for C10: the host " / ". -/
theorem claim_C10_slash_only_host_witness :
    jsTrim " / " ≠ "" ∧ (∀ c ∈ (jsTrim " / ").data, c = '/') ∧
    normalizeBaseUrl " / " = defaultOrigin :=
  ⟨by decide, by decide,
    claim_C10_slash_only_host " / " (by decide) (by decide)⟩

end Storyboard
